import Mathlib

/-!
Verification of the valuation engine of the intrinsic-value-calculator
repository (`src/provider.py`): the forward DCF computation `dcf`, its
reverse-DCF objectives, and the helpers `calc_cagr` and `calc_up_downside`.

Modelling conventions.
Python floats are modelled by exact rationals (`ℚ`); the one place where the
code computes an irrational value (the fractional power in `calc_cagr`) is
modelled in `ℝ`.  Python float division raises `ZeroDivisionError` on a zero
denominator, and indexing an array out of range raises `IndexError`; these
two failure modes are modelled by the `Except PyErr` results below.  (On the
numpy-float path — the one taken after scalar broadcasting — a zero
denominator produces `inf`/`nan` instead of an exception; either way the
computation yields no finite value, which is what the error result records.)
`scipy.optimize.minimize_scalar` is an external library routine; it is
modelled by an abstract `solver` argument mapping an objective function to
the abscissa `x` that scipy would return for it.
-/

/-- Scalar-or-array duality of the `rev_growth_array` / `fcf_margins_array`
arguments.  The code tests `np.array([a]).shape == (1,)`, which is true
exactly when `a` is a scalar (a one-element *list* has shape `(1, 1)`). -/
inductive NumArr where
  | scalar (x : ℚ)
  | array (xs : List ℚ)

/-- Broadcasting step of `dcf` (provider.py lines 270-274): a scalar is
expanded with `np.full(n_future_years, a)`; an array is left unchanged. -/
def broadcast (a : NumArr) (n : ℕ) : List ℚ :=
  match a with
  | NumArr.scalar x => List.replicate n x
  | NumArr.array xs => xs

/-- Failure modes of the Python code: float division by a zero denominator
(`ZeroDivisionError`) and out-of-range array indexing (`IndexError`). -/
inductive PyErr where
  | zeroDivision
  | indexError
deriving DecidableEq

/-- Projection loop of `dcf` (provider.py lines 277-281):
`rev_inc` starts at `latest_revenue` and for `i in range(n_future_years)` is
multiplied by `1 + rev_growth_array[i]`, appending
`rev_inc * fcf_margins_array[i]`.  The recursion consumes one list element per
iteration; the fall-through case (a list shorter than `n`) corresponds to
Python's `IndexError` and is excluded by the guard in `dcf_reverse`. -/
def proj_fcf : ℕ → ℚ → List ℚ → List ℚ → List ℚ
  | 0, _, _, _ => []
  | Nat.succ n, rev, g :: gs, m :: ms =>
      rev * (1 + g) * m :: proj_fcf n (rev * (1 + g)) gs ms
  | Nat.succ _, _, _, _ => []

/-- Discounting loop of `dcf` (provider.py lines 283-291): element `i` of the
projected-FCF list (0-based, the accumulator starts at `i`) is divided by the
discount factor `(1 + wacc) ^ (i + 1)` and the quotients are summed. -/
def discountedSum (wacc : ℚ) : ℕ → List ℚ → ℚ
  | _, [] => 0
  | i, p :: ps => p / (1 + wacc) ^ (i + 1) + discountedSum wacc (i + 1) ps

/-- Terminal value and per-share fair value of `dcf` (provider.py lines
293-301), written with Lean's total division: the terminal value
`proj_fcf[-1] * (1 + tgr) / (wacc - tgr)` is discounted by the last discount
factor `(1 + wacc) ^ n`, added to the discounted-FCF sum, and divided by
`total_shares`.  The zero-denominator cases are guarded in `dcf_reverse`. -/
def fairValueRaw (n : ℕ) (G M : List ℚ) (rev wacc tgr shares : ℚ) : ℚ :=
  let p := proj_fcf n rev G M
  let dsum := discountedSum wacc 0 p
  let tv := p.getLastD 0 * (1 + tgr) / (wacc - tgr) / (1 + wacc) ^ n
  (dsum + tv) / shares

/-- The `reverse_dcf_mode=True` path of `dcf` (provider.py lines 268-306): it
broadcasts, projects, discounts, and returns the *unrounded* per-share fair
value and nothing else.  The error cases record where the Python-float code
raises: `IndexError` when a per-year array is shorter than `n_future_years`
or when `n_future_years = 0` (then `proj_fcf[-1]` on line 294 indexes an
empty list), and `ZeroDivisionError` for the zero denominators
`1 + wacc = 0` (discount factors, line 291), `wacc - tgr = 0` (terminal
value, line 294) and `total_shares = 0` (line 301).  `current_price` is not
used on this path. -/
def dcf_reverse (gs ms : NumArr) (n : ℕ) (rev wacc tgr shares : ℚ) :
    Except PyErr ℚ :=
  let G := broadcast gs n
  let M := broadcast ms n
  if G.length < n ∨ M.length < n then Except.error PyErr.indexError
  else if n = 0 then Except.error PyErr.indexError
  else if 1 + wacc = 0 then Except.error PyErr.zeroDivision
  else if wacc - tgr = 0 then Except.error PyErr.zeroDivision
  else if shares = 0 then Except.error PyErr.zeroDivision
  else Except.ok (fairValueRaw n G M rev wacc tgr shares)

/-- Rounding of Python's builtin `round(x, 2)` (used throughout
provider.py), which rounds half to even, modelled exactly on rationals.
Scaled by 100, the integer nearest `100 * x` is taken, ties going to the
even neighbour. -/
def roundHalfEven (x : ℚ) : ℤ :=
  if x - ⌊x⌋ < 1 / 2 then ⌊x⌋
  else if 1 / 2 < x - ⌊x⌋ then ⌊x⌋ + 1
  else if Even ⌊x⌋ then ⌊x⌋ else ⌊x⌋ + 1

/-- Round a rational to 2 decimal places, Python `round(x, 2)`. -/
def round2 (x : ℚ) : ℚ := (roundHalfEven (100 * x) : ℚ) / 100

open Classical in
/-- Real-valued version of `roundHalfEven` for the one real-valued quantity
in the code, the CAGR of a growth path. -/
noncomputable def roundHalfEvenR (x : ℝ) : ℤ :=
  if x - ⌊x⌋ < 1 / 2 then ⌊x⌋
  else if 1 / 2 < x - ⌊x⌋ then ⌊x⌋ + 1
  else if Even ⌊x⌋ then ⌊x⌋ else ⌊x⌋ + 1

/-- Round a real to 2 decimal places, Python `round(x, 2)`. -/
noncomputable def round2R (x : ℝ) : ℝ := (roundHalfEvenR (100 * x) : ℝ) / 100

/-- Compounded multiplier of `calc_cagr` (provider.py lines 410-412):
`final_val` starts at `1` and is multiplied by `1 + r` for each entry of the
growth path. -/
def multiplier (rs : List ℚ) : ℚ :=
  rs.foldl (fun acc r => acc * (1 + r)) 1

/-- The function `calc_cagr` (provider.py lines 407-413).  A scalar growth
argument is returned directly as a percentage, `round(100 * g, 2)`.  For a
per-year array the compounded multiplier `M` is formed and the result is
`round(np.sign(M) * 100 * (np.abs(M / 1) ** (1 / N) - 1), 2)`; the
fractional power of the nonnegative `np.abs(M)` is real `rpow`, and `1 / N`
is Python float division (`N ≥ 1` at every call site; `N = 0` would raise in
Python and is unreachable from `dcf`, whose `n = 0` case errors earlier). -/
noncomputable def calc_cagr (a : NumArr) (N : ℕ) : ℝ :=
  match a with
  | NumArr.scalar g => ((round2 (100 * g) : ℚ) : ℝ)
  | NumArr.array rs =>
      let M : ℝ := ((multiplier rs : ℚ) : ℝ)
      round2R (Real.sign M * 100 * (|M| ^ ((1 : ℝ) / (N : ℝ)) - 1))

/-- The function `calc_up_downside` (provider.py lines 347-353), with its two
branches transcribed separately exactly as in the source. -/
def calc_up_downside (fair_value current_price : ℚ) : ℚ :=
  if fair_value > current_price then
    round2 ((fair_value - current_price) / current_price * 100)
  else
    round2 (-100 * ((current_price - fair_value) / current_price))

/-- Per-year reverse-DCF objective for revenue growth (provider.py lines
309-313): the distance between the current price and the unrounded fair
value that `dcf(..., reverse_dcf_mode=True)` returns when the growth path is
replaced by the uniform array `np.full(n_future_years, x)`. -/
def reverse_dcf_revenue (M : List ℚ) (n : ℕ)
    (rev wacc tgr shares price : ℚ) (x : ℚ) : ℚ :=
  |fairValueRaw n (List.replicate n x) M rev wacc tgr shares - price|

/-- Reverse-DCF objective for the FCF margin (provider.py lines 315-320). -/
def reverse_dcf_fcf_margin (G : List ℚ) (n : ℕ)
    (rev wacc tgr shares price : ℚ) (x : ℚ) : ℚ :=
  |fairValueRaw n G (List.replicate n x) rev wacc tgr shares - price|

/-- Reverse-DCF objective for the discount rate (provider.py lines 322-326):
the forward valuation is re-evaluated with `wacc` replaced by `x`. -/
def reverse_dcf_discount_rate (G M : List ℚ) (n : ℕ)
    (rev tgr shares price : ℚ) (x : ℚ) : ℚ :=
  |fairValueRaw n G M rev x tgr shares - price|

/-- The five components returned by `dcf` in default mode (provider.py line
345), in source order. -/
structure DcfResult where
  fair_value : ℚ
  required_rev_growth : ℚ
  required_discount_rate : ℚ
  required_fcf_margin : ℚ
  assumed_cagr : ℝ

/-- The function `dcf` in default mode (provider.py lines 268-345).  The
forward valuation is shared with `dcf_reverse`; on success the code rounds
the fair value to 2 decimals, runs `scipy.optimize.minimize_scalar` on each
of the three reverse objectives — modelled by the abstract `solver`
argument, which stands for the `.x` scipy returns for a given objective —
scales each solution by 100 and rounds it, and computes `assumed_cagr` with
`calc_cagr` applied to the *broadcast* growth array (the scalar case was
overwritten by `np.full` on line 271 before the call on line 303). -/
noncomputable def dcf (solver : (ℚ → ℚ) → ℚ) (gs ms : NumArr) (n : ℕ)
    (rev wacc tgr shares price : ℚ) : Except PyErr DcfResult :=
  (dcf_reverse gs ms n rev wacc tgr shares).map (fun fv =>
    let G := broadcast gs n
    let M := broadcast ms n
    { fair_value := round2 fv
      required_rev_growth :=
        round2 (100 * solver (reverse_dcf_revenue M n rev wacc tgr shares price))
      required_discount_rate :=
        round2 (100 * solver (reverse_dcf_discount_rate G M n rev tgr shares price))
      required_fcf_margin :=
        round2 (100 * solver (reverse_dcf_fcf_margin G n rev wacc tgr shares price))
      assumed_cagr := calc_cagr (NumArr.array G) n })

/-- A fixed stand-in for the scipy minimizer, used to instantiate the
abstract `solver` argument in concrete evaluations. -/
def solver0 : (ℚ → ℚ) → ℚ := fun _ => 0

/-- Spec-side definition (spec section 4.1, claim formula): projected revenue
for year `i`, defined by the recurrence
`revenue_i = revenue_(i-1) * (1 + growth_i)` starting from `latestRevenue`,
where `growth_i` is the `i`-th entry (1-indexed) of the growth sequence. -/
def claimRevenue (rev : ℚ) (G : List ℚ) : ℕ → ℚ
  | 0 => rev
  | Nat.succ i => claimRevenue rev G i * (1 + G.getD i 0)

/-- Spec-side definition: projected free cash flow for year `i` (1-indexed),
`FCF_i = revenue_i * margin_i`. -/
def claimFCF (rev : ℚ) (G M : List ℚ) (i : ℕ) : ℚ :=
  claimRevenue rev G i * M.getD (i - 1) 0

/-- Spec-side definition: the enterprise value `E` of claim C1, the sum over
`i = 1..years` of `FCF_i / (1 + discountRate) ^ i` plus
`FCF_years * (1 + terminalGrowthRate) / (discountRate - terminalGrowthRate)`
discounted by `(1 + discountRate) ^ years`. -/
def claimEnterpriseValue (rev : ℚ) (G M : List ℚ) (n : ℕ) (wacc tgr : ℚ) : ℚ :=
  (∑ i ∈ Finset.range n, claimFCF rev G M (i + 1) / (1 + wacc) ^ (i + 1))
    + claimFCF rev G M n * (1 + tgr) / (wacc - tgr) / (1 + wacc) ^ n

theorem claimRevenue_cons (rev g : ℚ) (gs : List ℚ) (i : ℕ) :
    claimRevenue rev (g :: gs) (i + 1) = claimRevenue (rev * (1 + g)) gs i := by
  induction i with
  | zero => simp [claimRevenue]
  | succ i ih => rw [claimRevenue, ih, claimRevenue]; rfl

theorem proj_fcf_eq_map (n : ℕ) :
    ∀ (rev : ℚ) (G M : List ℚ), n ≤ G.length → n ≤ M.length →
      proj_fcf n rev G M
        = (List.range n).map (fun i => claimFCF rev G M (i + 1)) := by
  induction n with
  | zero => intro rev G M _ _; simp [proj_fcf]
  | succ n ih =>
    intro rev G M hG hM
    match G, M with
    | g :: gs, m :: ms =>
      rw [List.range_succ_eq_map, List.map_cons, List.map_map, proj_fcf]
      have h1 : claimFCF rev (g :: gs) (m :: ms) 1 = rev * (1 + g) * m := by
        simp [claimFCF, claimRevenue]
      rw [ih (rev * (1 + g)) gs ms (by simpa using hG) (by simpa using hM)]
      refine congrArg₂ _ h1.symm (List.map_congr_left fun i _ => ?_)
      simp only [Function.comp_apply, claimFCF, Nat.succ_sub_one]
      rw [claimRevenue_cons]
      rfl

theorem discountedSum_map (wacc : ℚ) (n : ℕ) :
    ∀ (k : ℕ) (f : ℕ → ℚ),
      discountedSum wacc k ((List.range n).map f)
        = ∑ i ∈ Finset.range n, f i / (1 + wacc) ^ (k + i + 1) := by
  induction n with
  | zero => intro k f; simp [discountedSum]
  | succ n ih =>
    intro k f
    rw [List.range_succ_eq_map, List.map_cons, List.map_map, discountedSum,
      ih (k + 1) (f ∘ Nat.succ), Finset.sum_range_succ']
    have : ∀ i, f (i + 1) / (1 + wacc) ^ (k + 1 + i + 1)
        = f (i + 1) / (1 + wacc) ^ (k + (i + 1) + 1) := by
      intro i; ring_nf
    simp only [Function.comp_apply, this]
    ring

theorem fairValueRaw_eq_claim (n : ℕ) (G M : List ℚ) (rev wacc tgr shares : ℚ)
    (hn : 1 ≤ n) (hG : n ≤ G.length) (hM : n ≤ M.length) :
    fairValueRaw n G M rev wacc tgr shares
      = claimEnterpriseValue rev G M n wacc tgr / shares := by
  obtain ⟨m, rfl⟩ : ∃ m, n = m + 1 := ⟨n - 1, (Nat.succ_pred_eq_of_pos hn).symm⟩
  unfold fairValueRaw claimEnterpriseValue
  dsimp only
  rw [proj_fcf_eq_map _ _ _ _ hG hM, discountedSum_map]
  have hlast : ((List.range (m + 1)).map
      (fun i => claimFCF rev G M (i + 1))).getLastD 0 = claimFCF rev G M (m + 1) := by
    rw [List.range_succ, List.map_append]
    simp
  rw [hlast]
  simp only [Nat.zero_add]

theorem dcf_reverse_ok (gs ms : NumArr) (n : ℕ) (rev wacc tgr shares : ℚ)
    (hn : 1 ≤ n) (hG : n ≤ (broadcast gs n).length)
    (hM : n ≤ (broadcast ms n).length) (hw : wacc ≠ tgr)
    (hq : 1 + wacc ≠ 0) (hs : shares ≠ 0) :
    dcf_reverse gs ms n rev wacc tgr shares
      = Except.ok (fairValueRaw n (broadcast gs n) (broadcast ms n)
          rev wacc tgr shares) := by
  unfold dcf_reverse
  rw [if_neg, if_neg, if_neg hq, if_neg, if_neg hs]
  · exact sub_ne_zero_of_ne hw
  · omega
  · omega

/-- Claim C1: for inputs with `discountRate ≠ terminalGrowthRate`,
`years ≥ 1` and `totalShares > 0` (and, implicitly for the formula to be
defined, `discountRate ≠ -1`), the first component returned by `dcf` equals
`round(E / totalShares, 2)` where `E` is the claim's enterprise value built
from the revenue recurrence. -/
theorem dcf_fair_value_formula (solver : (ℚ → ℚ) → ℚ) (gs ms : NumArr)
    (n : ℕ) (rev wacc tgr shares price : ℚ)
    (hw : wacc ≠ tgr) (hn : 1 ≤ n) (hs : 0 < shares) (hq : 1 + wacc ≠ 0)
    (hG : n ≤ (broadcast gs n).length) (hM : n ≤ (broadcast ms n).length) :
    (dcf solver gs ms n rev wacc tgr shares price).map DcfResult.fair_value
      = Except.ok (round2 (claimEnterpriseValue rev (broadcast gs n)
          (broadcast ms n) n wacc tgr / shares)) := by
  unfold dcf
  rw [dcf_reverse_ok gs ms n rev wacc tgr shares hn hG hM hw hq hs.ne',
    fairValueRaw_eq_claim n _ _ rev wacc tgr shares hn hG hM]
  rfl

/-- Witness for C1 at the spec's golden scenario (`years = 5`,
`latestRevenue = 10^6`, growth `0.10`, margin `0.20`, `wacc = 0.10`,
`tgr = 0.025`, `shares = 10^5`). -/
theorem dcf_fair_value_formula_witness :
    (1 : ℚ) / 10 ≠ 1 / 40 ∧ (0 : ℚ) < 100000 ∧
      (dcf solver0 (NumArr.scalar (1 / 10)) (NumArr.scalar (1 / 5)) 5
          1000000 (1 / 10) (1 / 40) 100000 50).map DcfResult.fair_value
        = Except.ok (round2 (claimEnterpriseValue 1000000
            (broadcast (NumArr.scalar (1 / 10)) 5)
            (broadcast (NumArr.scalar (1 / 5)) 5) 5 (1 / 10) (1 / 40)
            / 100000)) :=
  ⟨by norm_num, by norm_num,
    dcf_fair_value_formula solver0 (NumArr.scalar (1 / 10))
      (NumArr.scalar (1 / 5)) 5 1000000 (1 / 10) (1 / 40) 100000 50
      (by norm_num) (by norm_num) (by norm_num) (by norm_num)
      (by simp [broadcast]) (by simp [broadcast])⟩

/-- Claim C4: `dcf` with a scalar growth rate `g` equals `dcf` with the
uniform array `[g] * years`, and likewise for a scalar FCF margin; the
projected-FCF path agrees as well.  This holds for every input (no
restriction on `years` is needed): both sides broadcast to the same
length-`years` list before any arithmetic. -/
theorem dcf_broadcast_equiv (solver : (ℚ → ℚ) → ℚ) (g m : ℚ) (gs ms : NumArr)
    (n : ℕ) (rev wacc tgr shares price : ℚ) :
    dcf solver (NumArr.scalar g) ms n rev wacc tgr shares price
        = dcf solver (NumArr.array (List.replicate n g)) ms n rev wacc tgr
            shares price
      ∧ dcf solver gs (NumArr.scalar m) n rev wacc tgr shares price
        = dcf solver gs (NumArr.array (List.replicate n m)) n rev wacc tgr
            shares price
      ∧ proj_fcf n rev (broadcast (NumArr.scalar g) n) (broadcast ms n)
        = proj_fcf n rev (broadcast (NumArr.array (List.replicate n g)) n)
            (broadcast ms n) :=
  ⟨rfl, rfl, rfl⟩

/-- Claim C8: `calc_cagr` with a scalar growth argument returns
`round(100 * g, 2)`, independent of the `years` argument. -/
theorem calc_cagr_scalar_identity (g : ℚ) (N K : ℕ) :
    calc_cagr (NumArr.scalar g) N = ((round2 (100 * g) : ℚ) : ℝ)
      ∧ calc_cagr (NumArr.scalar g) N = calc_cagr (NumArr.scalar g) K :=
  ⟨rfl, rfl⟩

/-- Claim C9: for every fair value and positive current price,
`calc_up_downside` returns `round((fair - price) / price * 100, 2)` in both
branches, and in particular maps `(120, 100)` to `20.00` and `(80, 100)` to
`-20.00`. -/
theorem calc_up_downside_formula :
    (∀ fv p : ℚ, 0 < p →
        calc_up_downside fv p = round2 ((fv - p) / p * 100))
      ∧ calc_up_downside 120 100 = 20 ∧ calc_up_downside 80 100 = -20 := by
  refine ⟨fun fv p _ => ?_,
    by norm_num [calc_up_downside, round2, roundHalfEven],
    by norm_num [calc_up_downside, round2, roundHalfEven]⟩
  unfold calc_up_downside
  split
  · rfl
  · have : -100 * ((p - fv) / p) = (fv - p) / p * 100 := by ring
    rw [this]

/-- Witness for C9's quantified part at `fv = 130`, `price = 100`. -/
theorem calc_up_downside_formula_witness :
    (0 : ℚ) < 100 ∧
      calc_up_downside 130 100 = round2 ((130 - 100) / 100 * 100) :=
  ⟨by norm_num, calc_up_downside_formula.1 130 100 (by norm_num)⟩

/-- Claim C3 (code bug): at `discountRate = terminalGrowthRate` (here both
`0.05`, with the spec's golden inputs otherwise) the terminal-value
denominator `wacc - tgr` on provider.py line 294 is zero and the computation
produces no finite value — `ZeroDivisionError` on the pure-Python-float
path, silently `inf`/`nan` on the numpy path taken after scalar
broadcasting.  No `DomainError` is raised; no such type exists anywhere in
the repository. -/
theorem dcf_equal_rates_no_finite_value :
    dcf solver0 (NumArr.scalar (1 / 10)) (NumArr.scalar (1 / 5)) 5
        1000000 (1 / 20) (1 / 20) 100000 50
      = Except.error PyErr.zeroDivision := by
  norm_num [dcf, dcf_reverse, broadcast, Except.map]

/-- Claim C6 (code bug): `dcf` performs no validation of `current_price` or
`total_shares`.  With `current_price = -5` (first conjunct) or
`total_shares = -100000` (second conjunct) it still runs all three reverse
solves and returns a full result — whatever values the scipy minimizer
hands back — instead of failing with a `DomainError`. -/
theorem dcf_reverse_no_price_validation :
    ∀ solver : (ℚ → ℚ) → ℚ,
      (dcf solver (NumArr.scalar (1 / 10)) (NumArr.scalar (1 / 5)) 5
          1000000 (1 / 10) (1 / 40) 100000 (-5)).isOk = true
        ∧ (dcf solver (NumArr.scalar (1 / 10)) (NumArr.scalar (1 / 5)) 5
            1000000 (1 / 10) (1 / 40) (-100000) 50).isOk = true := by
  intro solver
  constructor <;>
    norm_num [dcf, dcf_reverse, broadcast, Except.map, Except.isOk,
      Except.toBool]

theorem roundHalfEvenR_ge_floor (x : ℝ) : ⌊x⌋ ≤ roundHalfEvenR x := by
  unfold roundHalfEvenR
  split_ifs <;> omega

theorem roundHalfEvenR_nonpos (x : ℝ) (hx : x ≤ 0) : roundHalfEvenR x ≤ 0 := by
  have hf : ⌊x⌋ ≤ 0 := by
    calc ⌊x⌋ ≤ ⌊(0 : ℝ)⌋ := Int.floor_le_floor hx
    _ = 0 := Int.floor_zero
  unfold roundHalfEvenR
  split_ifs with h1 h2 h3
  · exact hf
  · rcases lt_or_eq_of_le hf with h | h
    · omega
    · exfalso
      rw [h] at h2
      push_cast at h2
      linarith
  · exact hf
  · have : x - ⌊x⌋ = 1 / 2 := le_antisymm (not_lt.mp h2) (not_lt.mp h1)
    rcases lt_or_eq_of_le hf with h | h
    · omega
    · exfalso
      rw [h] at this
      push_cast at this
      linarith

theorem roundHalfEvenR_cast (q : ℚ) :
    roundHalfEvenR (q : ℝ) = roundHalfEven q := by
  have hval : ((q : ℝ) - ((⌊q⌋ : ℤ) : ℝ)) = (((q - ⌊q⌋ : ℚ)) : ℝ) := by
    push_cast; ring
  have hhalf : ((1 : ℝ) / 2) = (((1 : ℚ) / 2 : ℚ) : ℝ) := by norm_num
  have hiff1 : ((q : ℝ) - ((⌊q⌋ : ℤ) : ℝ) < 1 / 2) ↔ (q - ⌊q⌋ < 1 / 2) := by
    rw [hval, hhalf]
    exact Rat.cast_lt
  have hiff2 : ((1 : ℝ) / 2 < (q : ℝ) - ((⌊q⌋ : ℤ) : ℝ))
      ↔ ((1 : ℚ) / 2 < q - ⌊q⌋) := by
    rw [hval, hhalf]
    exact Rat.cast_lt
  unfold roundHalfEvenR roundHalfEven
  rw [Rat.floor_cast]
  by_cases h1 : q - ⌊q⌋ < 1 / 2
  · rw [if_pos (hiff1.mpr h1), if_pos h1]
  · rw [if_neg (fun hh => h1 (hiff1.mp hh)), if_neg h1]
    by_cases h2 : (1 : ℚ) / 2 < q - ⌊q⌋
    · rw [if_pos (hiff2.mpr h2), if_pos h2]
    · rw [if_neg (fun hh => h2 (hiff2.mp hh)), if_neg h2]

theorem round2R_cast (q : ℚ) :
    round2R ((q : ℚ) : ℝ) = ((round2 q : ℚ) : ℝ) := by
  unfold round2R round2
  rw [show ((100 : ℝ) * (q : ℝ)) = (((100 * q : ℚ) : ℚ) : ℝ) by push_cast; ring,
    roundHalfEvenR_cast]
  push_cast
  ring

theorem multiplier_replicate (n : ℕ) (g : ℚ) :
    multiplier (List.replicate n g) = (1 + g) ^ n := by
  have h : ∀ (n : ℕ) (a : ℚ),
      (List.replicate n g).foldl (fun acc r => acc * (1 + r)) a
        = a * (1 + g) ^ n := by
    intro n
    induction n with
    | zero => intro a; simp
    | succ n ih =>
      intro a
      rw [List.replicate_succ, List.foldl_cons, ih, pow_succ]
      ring
  unfold multiplier
  rw [h]
  ring

theorem calc_cagr_uniform (g : ℚ) (n : ℕ) (hg : 0 < 1 + g) (hn : n ≠ 0) :
    calc_cagr (NumArr.array (List.replicate n g)) n
      = ((round2 (100 * g) : ℚ) : ℝ) := by
  unfold calc_cagr
  dsimp only
  rw [multiplier_replicate]
  have hcast : (((1 + g) ^ n : ℚ) : ℝ) = ((1 + g : ℚ) : ℝ) ^ n := by push_cast; ring
  have hgR : (0 : ℝ) < ((1 + g : ℚ) : ℝ) := by exact_mod_cast hg
  have hpos : (0 : ℝ) < ((1 + g : ℚ) : ℝ) ^ n := pow_pos hgR n
  rw [hcast, Real.sign_of_pos hpos, abs_of_pos hpos, one_div,
    Real.pow_rpow_inv_natCast hgR.le hn]
  have : (1 : ℝ) * 100 * (((1 + g : ℚ) : ℝ) - 1) = (((100 * g : ℚ) : ℚ) : ℝ) := by
    push_cast; ring
  rw [this, round2R_cast]

theorem round2R_nonpos (x : ℝ) (hx : x ≤ 0) : round2R x ≤ 0 := by
  unfold round2R
  have h := roundHalfEvenR_nonpos (100 * x) (by linarith)
  have hcast : ((roundHalfEvenR (100 * x) : ℤ) : ℝ) ≤ 0 := by exact_mod_cast h
  exact div_nonpos_iff.mpr (Or.inr ⟨hcast, by norm_num⟩)

/-- Claim C7, amended: for a per-year growth sequence, `calc_cagr` returns
`round(sign(M) * 100 * (|M| ^ (1 / N) - 1), 2)` with
`M = prod (1 + r_i)`; when `M` is negative the result is a well-defined real
number (the fractional power is only ever applied to `|M| ≥ 0`), but its
sign follows `-(|M| ^ (1 / N) - 1)`: it is nonpositive when `|M| ≥ 1` and
can be positive when `|M| < 1`. -/
theorem calc_cagr_negative_multiplier (rs : List ℚ) (N : ℕ) (hN : 2 ≤ N)
    (hM : multiplier rs < 0) :
    calc_cagr (NumArr.array rs) N
        = round2R (Real.sign ((multiplier rs : ℚ) : ℝ) * 100 *
            (|((multiplier rs : ℚ) : ℝ)| ^ ((1 : ℝ) / (N : ℝ)) - 1))
      ∧ (1 ≤ |multiplier rs| → calc_cagr (NumArr.array rs) N ≤ 0) := by
  refine ⟨rfl, fun habs => ?_⟩
  have hMR : ((multiplier rs : ℚ) : ℝ) < 0 := by exact_mod_cast hM
  have habsR : (1 : ℝ) ≤ |((multiplier rs : ℚ) : ℝ)| := by
    rw [← Rat.cast_abs]
    exact_mod_cast habs
  have hexp : (0 : ℝ) ≤ (1 : ℝ) / (N : ℝ) := by positivity
  have ht : (1 : ℝ) ≤ |((multiplier rs : ℚ) : ℝ)| ^ ((1 : ℝ) / (N : ℝ)) :=
    Real.one_le_rpow habsR hexp
  show round2R _ ≤ 0
  rw [Real.sign_of_neg hMR]
  exact round2R_nonpos _ (by nlinarith)

/-- Witness for C7's amended claim at the growth path `[-300%, 0%]` over
`N = 2` years: the compounded multiplier is `-2` and the CAGR is
nonpositive. -/
theorem calc_cagr_negative_multiplier_witness :
    (2 : ℕ) ≤ 2 ∧ multiplier [-3, 0] < 0 ∧ (1 : ℚ) ≤ |multiplier [-3, 0]| ∧
      calc_cagr (NumArr.array [-3, 0]) 2 ≤ 0 := by
  have hM : multiplier [-3, 0] < 0 := by norm_num [multiplier]
  have habs : (1 : ℚ) ≤ |multiplier [-3, 0]| := by norm_num [multiplier]
  exact ⟨le_refl 2, hM, habs,
    (calc_cagr_negative_multiplier [-3, 0] 2 (le_refl 2) hM).2 habs⟩

/-- Counterexample to C7 as stated: the growth path `[-150%, 0%]` over
`N = 2` years has the negative compounded multiplier `-1/2`, yet
`calc_cagr` returns a *positive* value (`+29.29`), because
`|M| ^ (1 / N) < 1` flips the sign of `sign(M) * (|M| ^ (1 / N) - 1)`. -/
theorem calc_cagr_negative_multiplier_not_negative :
    multiplier [-(3 : ℚ) / 2, 0] < 0
      ∧ 0 < calc_cagr (NumArr.array [-(3 : ℚ) / 2, 0]) 2 := by
  have hMval : multiplier [-(3 : ℚ) / 2, 0] = -(1 / 2) := by
    norm_num [multiplier]
  refine ⟨by rw [hMval]; norm_num, ?_⟩
  unfold calc_cagr
  dsimp only
  rw [hMval]
  have hcast : (((-(1 / 2) : ℚ)) : ℝ) = -(1 / 2 : ℝ) := by push_cast; ring
  rw [hcast, Real.sign_of_neg (by norm_num : -(1 / 2 : ℝ) < 0)]
  have habs : |(-(1 / 2 : ℝ))| = 1 / 2 := by norm_num
  rw [habs]
  have hexp : ((1 : ℝ) / ((2 : ℕ) : ℝ)) = (1 / 2 : ℝ) := by norm_num
  rw [hexp, ← Real.sqrt_eq_rpow]
  set s : ℝ := Real.sqrt (1 / 2) with hs
  have hub : s < 71 / 100 := by
    rw [hs]
    exact (Real.sqrt_lt' (by norm_num)).mpr (by norm_num)
  have hval : (2900 : ℝ) ≤ 100 * (-1 * 100 * (s - 1)) := by nlinarith
  have hfl : (2900 : ℤ) ≤ ⌊100 * (-1 * 100 * (s - 1))⌋ :=
    Int.le_floor.mpr (by exact_mod_cast hval)
  have hr : (2900 : ℤ) ≤ roundHalfEvenR (100 * (-1 * 100 * (s - 1))) :=
    le_trans hfl (roundHalfEvenR_ge_floor _)
  have hZ : (0 : ℤ) < roundHalfEvenR (100 * (-1 * 100 * (s - 1))) := by omega
  have hXpos : (0 : ℝ)
      < ((roundHalfEvenR (100 * (-1 * 100 * (s - 1))) : ℤ) : ℝ) := by
    exact_mod_cast hZ
  unfold round2R
  exact div_pos hXpos (by norm_num)

/-- Claim C10: with `reverse_dcf_mode=True`, `dcf` returns only the
*unrounded* per-share fair value (enterprise value over `total_shares`, no
rounding, no reverse solves); the reverse objective re-evaluates exactly
that unrounded value with the axis substituted (shown here for the discount
rate) and measures its distance to `current_price`; only the first
component of the default-mode return is the 2-decimal rounding of it. -/
theorem dcf_reverse_mode_unrounded (solver : (ℚ → ℚ) → ℚ) (gs ms : NumArr)
    (n : ℕ) (rev wacc tgr shares price : ℚ)
    (hw : wacc ≠ tgr) (hn : 1 ≤ n) (hs : shares ≠ 0) (hq : 1 + wacc ≠ 0)
    (hG : n ≤ (broadcast gs n).length) (hM : n ≤ (broadcast ms n).length) :
    dcf_reverse gs ms n rev wacc tgr shares
        = Except.ok (fairValueRaw n (broadcast gs n) (broadcast ms n)
            rev wacc tgr shares)
      ∧ (dcf solver gs ms n rev wacc tgr shares price).map DcfResult.fair_value
        = Except.ok (round2 (fairValueRaw n (broadcast gs n) (broadcast ms n)
            rev wacc tgr shares))
      ∧ (∀ x : ℚ, x ≠ tgr → 1 + x ≠ 0 →
          dcf_reverse gs ms n rev x tgr shares
              = Except.ok (fairValueRaw n (broadcast gs n) (broadcast ms n)
                  rev x tgr shares)
            ∧ reverse_dcf_discount_rate (broadcast gs n) (broadcast ms n) n
                rev tgr shares price x
              = |fairValueRaw n (broadcast gs n) (broadcast ms n)
                  rev x tgr shares - price|)
      ∧ (dcf solver gs ms n rev wacc tgr shares price).map
            DcfResult.required_discount_rate
        = Except.ok (round2 (100 * solver (reverse_dcf_discount_rate
            (broadcast gs n) (broadcast ms n) n rev tgr shares price))) := by
  refine ⟨dcf_reverse_ok gs ms n rev wacc tgr shares hn hG hM hw hq hs,
    ?_, ?_, ?_⟩
  · unfold dcf
    rw [dcf_reverse_ok gs ms n rev wacc tgr shares hn hG hM hw hq hs]
    rfl
  · intro x hx hx1
    exact ⟨dcf_reverse_ok gs ms n rev x tgr shares hn hG hM hx hx1 hs, rfl⟩
  · unfold dcf
    rw [dcf_reverse_ok gs ms n rev wacc tgr shares hn hG hM hw hq hs]
    rfl

/-- Witness for C10 at the golden inputs. -/
theorem dcf_reverse_mode_unrounded_witness :
    (1 : ℚ) / 10 ≠ 1 / 40 ∧ (100000 : ℚ) ≠ 0 ∧
      dcf_reverse (NumArr.scalar (1 / 10)) (NumArr.scalar (1 / 5)) 5 1000000
          (1 / 10) (1 / 40) 100000
        = Except.ok (fairValueRaw 5
            (broadcast (NumArr.scalar (1 / 10)) 5)
            (broadcast (NumArr.scalar (1 / 5)) 5) 1000000 (1 / 10) (1 / 40)
            100000) :=
  ⟨by norm_num, by norm_num,
    (dcf_reverse_mode_unrounded solver0 (NumArr.scalar (1 / 10))
      (NumArr.scalar (1 / 5)) 5 1000000 (1 / 10) (1 / 40) 100000 50
      (by norm_num) (by norm_num) (by norm_num) (by norm_num)
      (by simp [broadcast]) (by simp [broadcast])).1⟩

/-- Claim C5, amended: in default mode `dcf` returns exactly the five
scalars `(round(fair_value, 2), required_rev_growth,
required_discount_rate, required_fcf_margin, assumed_cagr)`; the per-year
projected-FCF path is computed internally by the projection loop but is not
part of the return value. -/
theorem dcf_returns_five_scalars (solver : (ℚ → ℚ) → ℚ) (gs ms : NumArr)
    (n : ℕ) (rev wacc tgr shares price : ℚ)
    (hw : wacc ≠ tgr) (hn : 1 ≤ n) (hs : shares ≠ 0) (hq : 1 + wacc ≠ 0)
    (hG : n ≤ (broadcast gs n).length) (hM : n ≤ (broadcast ms n).length) :
    dcf solver gs ms n rev wacc tgr shares price
      = Except.ok
          { fair_value := round2 (fairValueRaw n (broadcast gs n)
              (broadcast ms n) rev wacc tgr shares)
            required_rev_growth := round2 (100 * solver (reverse_dcf_revenue
              (broadcast ms n) n rev wacc tgr shares price))
            required_discount_rate := round2 (100 * solver
              (reverse_dcf_discount_rate (broadcast gs n) (broadcast ms n) n
                rev tgr shares price))
            required_fcf_margin := round2 (100 * solver
              (reverse_dcf_fcf_margin (broadcast gs n) n rev wacc tgr shares
                price))
            assumed_cagr := calc_cagr (NumArr.array (broadcast gs n)) n } := by
  unfold dcf
  rw [dcf_reverse_ok gs ms n rev wacc tgr shares hn hG hM hw hq hs]
  rfl

/-- Witness for C5's amended claim at the golden inputs. -/
theorem dcf_returns_five_scalars_witness :
    (1 : ℚ) / 10 ≠ 1 / 40 ∧ (100000 : ℚ) ≠ 0 ∧
      dcf solver0 (NumArr.scalar (1 / 10)) (NumArr.scalar (1 / 5)) 5 1000000
          (1 / 10) (1 / 40) 100000 50
        = Except.ok
            { fair_value := round2 (fairValueRaw 5
                (broadcast (NumArr.scalar (1 / 10)) 5)
                (broadcast (NumArr.scalar (1 / 5)) 5) 1000000 (1 / 10)
                (1 / 40) 100000)
              required_rev_growth := round2 (100 * solver0
                (reverse_dcf_revenue (broadcast (NumArr.scalar (1 / 5)) 5) 5
                  1000000 (1 / 10) (1 / 40) 100000 50))
              required_discount_rate := round2 (100 * solver0
                (reverse_dcf_discount_rate
                  (broadcast (NumArr.scalar (1 / 10)) 5)
                  (broadcast (NumArr.scalar (1 / 5)) 5) 5 1000000 (1 / 40)
                  100000 50))
              required_fcf_margin := round2 (100 * solver0
                (reverse_dcf_fcf_margin (broadcast (NumArr.scalar (1 / 10)) 5)
                  5 1000000 (1 / 10) (1 / 40) 100000 50))
              assumed_cagr := calc_cagr (NumArr.array
                (broadcast (NumArr.scalar (1 / 10)) 5)) 5 } :=
  ⟨by norm_num, by norm_num,
    dcf_returns_five_scalars solver0 (NumArr.scalar (1 / 10))
      (NumArr.scalar (1 / 5)) 5 1000000 (1 / 10) (1 / 40) 100000 50
      (by norm_num) (by norm_num) (by norm_num) (by norm_num)
      (by simp [broadcast]) (by simp [broadcast])⟩

/-- Counterexample to C5 as stated: at the golden inputs with `years = 7`
the default-mode return of `dcf` is exactly the five scalars
`(41.33, 0, 0, 0, 10)` (with the stand-in minimizer `solver0`); the
projected-FCF path starts with `220000`, and no returned component equals
it — no length-`years` sequence is part of the return value. -/
theorem dcf_output_omits_projected_path :
    dcf solver0 (NumArr.scalar (1 / 10)) (NumArr.scalar (1 / 5)) 7 1000000
        (1 / 10) (1 / 40) 100000 50
      = Except.ok
          { fair_value := 4133 / 100, required_rev_growth := 0,
            required_discount_rate := 0, required_fcf_margin := 0,
            assumed_cagr := (10 : ℝ) }
    ∧ (proj_fcf 7 1000000 (List.replicate 7 (1 / 10))
        (List.replicate 7 (1 / 5))).head? = some 220000
    ∧ (4133 / 100 : ℚ) ≠ 220000 ∧ (0 : ℚ) ≠ 220000 ∧ (10 : ℝ) ≠ 220000 := by
  refine ⟨?_, ?_, by norm_num, by norm_num, by norm_num⟩
  · have hfv : fairValueRaw 7 (List.replicate 7 (1 / 10))
        (List.replicate 7 (1 / 5)) 1000000 (1 / 10) (1 / 40) 100000
          = 124 / 3 := by
      norm_num [fairValueRaw, proj_fcf, discountedSum, List.replicate,
        List.getLastD]
    have hfl : ⌊(100 * (124 / 3 : ℚ))⌋ = 4133 := by
      rw [Int.floor_eq_iff]
      norm_num
    have h1 : round2 (124 / 3) = 4133 / 100 := by
      unfold round2 roundHalfEven
      rw [hfl]
      norm_num
    have h2 : ∀ f : ℚ → ℚ, round2 (100 * solver0 f) = 0 := by
      intro f
      unfold solver0 round2 roundHalfEven
      norm_num
    have h3 : round2 (100 * (1 / 10 : ℚ)) = 10 := by
      unfold round2 roundHalfEven
      norm_num
    have hcagr : calc_cagr (NumArr.array (List.replicate 7 (1 / 10))) 7
        = (10 : ℝ) := by
      rw [calc_cagr_uniform (1 / 10) 7 (by norm_num) (by norm_num), h3]
      norm_num
    unfold dcf
    rw [dcf_reverse_ok (NumArr.scalar (1 / 10)) (NumArr.scalar (1 / 5)) 7
      1000000 (1 / 10) (1 / 40) 100000 (by norm_num) (by simp [broadcast])
      (by simp [broadcast]) (by norm_num) (by norm_num) (by norm_num)]
    show Except.ok _ = Except.ok _
    simp only [broadcast]
    rw [hfv, h1, h2, h2, h2, hcagr]
  · norm_num [proj_fcf, List.replicate]
